import Mathlib

/-!
Verification development for the rust-trading repository.

Shallow embedding conventions:
* `f64` values are modelled as exact rationals (`ℚ`); the numeric claims under
  scrutiny concern the algebraic structure of the computations.
* `Vec<f64>` / slices become `List ℚ`.
* MongoDB `ObjectId`s become `ℕ`; the per-user slice of the database becomes an
  explicit state record threaded through the operations.
* Fallible Rust code (`Result<_, AppError>`) becomes `Except AppError _`;
  a `usize` subtraction that can underflow (a panic) is modelled by `Option`.
* Timestamps (`created_at`, `updated_at`, ...) are elided: no claim mentions
  them and the code only stamps the current wall-clock time into them.
* Error messages built with `format!` interpolation keep their constant part;
  the interpolated numbers are elided.
-/

namespace RustTrading

/-! ## Indicator library (src/strategies/indicators) -/

namespace MovingAverageIndicator

/-- `MovingAverageIndicator::calculate_sma` (moving_average.rs lines 9-23):
window means of width `period`; empty when `prices.len() < period`. -/
def calculate_sma (prices : List ℚ) (period : ℕ) : List ℚ :=
  if prices.length < period then []
  else
    (List.range (prices.length - period + 1)).map
      (fun j => ((prices.drop j).take period).sum / (period : ℚ))

/-- The push loop of `calculate_ema` (moving_average.rs lines 39-42): each new
value is `(price - last) * multiplier + last`. -/
def emaLoop (multiplier : ℚ) (prev : ℚ) : List ℚ → List ℚ
  | [] => []
  | p :: ps =>
      let e := (p - prev) * multiplier + prev
      e :: emaLoop multiplier e ps

/-- `MovingAverageIndicator::calculate_ema` (moving_average.rs lines 26-45):
seeded with the SMA of the first `period` prices, multiplier `2/(period+1)`;
empty when `prices.len() < period`. -/
def calculate_ema (prices : List ℚ) (period : ℕ) : List ℚ :=
  if prices.length < period then []
  else
    let multiplier : ℚ := 2 / ((period : ℚ) + 1)
    let sma := (prices.take period).sum / (period : ℚ)
    sma :: emaLoop multiplier sma (prices.drop period)

end MovingAverageIndicator

namespace RSIIndicator

/-- Consecutive price changes `prices[i] - prices[i-1]` (rsi.rs lines 17-21). -/
def changes : List ℚ → List ℚ
  | p₀ :: p₁ :: ps => (p₁ - p₀) :: changes (p₁ :: ps)
  | _ => []

/-- A change contributes `change` to the gains when positive, else `0`. -/
def gain (change : ℚ) : ℚ := if change > 0 then change else 0

/-- A change contributes `-change` to the losses when negative, else `0`. -/
def loss (change : ℚ) : ℚ := if change < 0 then -change else 0

/-- The RSI formula (rsi.rs lines 33 and 41):
`100 - 100/(1 + avg_gain / avg_loss.max(0.00001))`. -/
def rsiOf (avgGain avgLoss : ℚ) : ℚ :=
  100 - 100 / (1 + avgGain / max avgLoss (1 / 100000))

/-- The Wilder-smoothing loop of `RSIIndicator::calculate` (rsi.rs lines
37-43), consuming the remaining (gain, loss) pairs in lockstep. -/
def rsiLoop (period : ℕ) (avgGain avgLoss : ℚ) : List (ℚ × ℚ) → List ℚ
  | [] => []
  | gl :: rest =>
      let ag := (avgGain * ((period : ℚ) - 1) + gl.1) / (period : ℚ)
      let al := (avgLoss * ((period : ℚ) - 1) + gl.2) / (period : ℚ)
      rsiOf ag al :: rsiLoop period ag al rest

/-- `RSIIndicator::calculate` (rsi.rs lines 8-47): empty when
`prices.len() <= period`; otherwise the seed RSI from the simple means of the
first `period` gains/losses followed by the Wilder-smoothed values. -/
def calculate (prices : List ℚ) (period : ℕ) : List ℚ :=
  if prices.length ≤ period then []
  else
    let gains := (changes prices).map gain
    let losses := (changes prices).map loss
    let firstAvgGain := (gains.take period).sum / (period : ℚ)
    let firstAvgLoss := (losses.take period).sum / (period : ℚ)
    rsiOf firstAvgGain firstAvgLoss ::
      rsiLoop period firstAvgGain firstAvgLoss
        ((gains.drop period).zip (losses.drop period))

end RSIIndicator

namespace MACDIndicator

/-- `MACDIndicator::calculate` (macd.rs lines 11-51).  `none` models a panic:
the `usize` subtraction `fast_ema.len() - slow_ema.len()` (line 29) underflows
whenever the fast EMA is the shorter sequence — in debug builds the
subtraction itself panics, in release builds it wraps and the subsequent slice
`&fast_ema[len_diff..]` panics.  The analogous alignment at line 42 is modelled
the same way. -/
def calculate (prices : List ℚ) (fast_period slow_period signal_period : ℕ) :
    Option (List ℚ × List ℚ × List ℚ) :=
  let fast_ema := MovingAverageIndicator.calculate_ema prices fast_period
  let slow_ema := MovingAverageIndicator.calculate_ema prices slow_period
  if fast_ema.isEmpty ∨ slow_ema.isEmpty then some ([], [], [])
  else if fast_ema.length < slow_ema.length then none
  else
    let len_diff := fast_ema.length - slow_ema.length
    let adjusted_fast_ema := fast_ema.drop len_diff
    let macd_line := (adjusted_fast_ema.zip slow_ema).map (fun x => x.1 - x.2)
    let signal_line := MovingAverageIndicator.calculate_ema macd_line signal_period
    if macd_line.length < signal_line.length then none
    else
      let len_diff2 := macd_line.length - signal_line.length
      let adjusted_macd_line := macd_line.drop len_diff2
      let histogram := (adjusted_macd_line.zip signal_line).map (fun x => x.1 - x.2)
      some (macd_line, signal_line, histogram)

end MACDIndicator

/-! ## Shared data model (src/paper_trading/model.rs, src/error.rs) -/

/-- `OrderSide` (paper_trading/model.rs lines 13-17). -/
inductive OrderSide
  | Buy
  | Sell
  deriving DecidableEq, Repr

/-- `OrderType` (paper_trading/model.rs lines 7-11): market orders only. -/
inductive OrderType
  | Market
  deriving DecidableEq, Repr

/-- `OrderStatus` (paper_trading/model.rs lines 19-23): always filled. -/
inductive OrderStatus
  | Filled
  deriving DecidableEq, Repr

/-- `AppError` (error.rs lines 9-34). -/
inductive AppError
  | AuthError (msg : String)
  | AuthzError (msg : String)
  | AuthorizationError (msg : String)
  | ValidationError (msg : String)
  | DatabaseError (msg : String)
  | ConfigError (msg : String)
  | NotFoundError (msg : String)
  | InternalError (msg : String)
  deriving DecidableEq, Repr

/-- `Position` (paper_trading/model.rs lines 81-94); user and timestamps
elided (the state below is the slice of the database for one user). -/
structure Position where
  id : Option ℕ
  symbol : String
  quantity : ℚ
  entry_price : ℚ
  current_price : ℚ
  unrealized_pnl : ℚ
  realized_pnl : ℚ
  side : OrderSide
  deriving DecidableEq, Repr

/-- `Order` (paper_trading/model.rs lines 25-39); user and timestamps
elided. -/
structure Order where
  id : Option ℕ
  symbol : String
  order_type : OrderType
  side : OrderSide
  quantity : ℚ
  price : Option ℚ
  status : OrderStatus
  position_id : Option ℕ
  deriving DecidableEq, Repr

/-- `CreateOrderRequest` (paper_trading/model.rs lines 41-49). -/
structure CreateOrderRequest where
  symbol : String
  order_type : OrderType
  side : OrderSide
  quantity : ℚ
  deriving DecidableEq, Repr

/-- The per-user slice of the persistence gateway: cash balance, open
positions, order history, and the next fresh document id the database would
assign. -/
structure TradingState where
  balance : ℚ
  positions : List Position
  orders : List Order
  next_id : ℕ
  deriving DecidableEq, Repr

/-! ## Paper-trading repository (src/paper_trading/repository.rs), one user -/

namespace PaperTradingRepository

/-- `get_position_by_user_and_symbol`: the open position for this symbol. -/
def get_position_by_user_and_symbol (st : TradingState) (symbol : String) :
    Option Position :=
  st.positions.find? (fun p => p.symbol == symbol)

/-- `update_user_balance`: overwrite the cash balance. -/
def update_user_balance (st : TradingState) (new_balance : ℚ) : TradingState :=
  { st with balance := new_balance }

/-- `update_position`: replace the stored position with the matching id. -/
def update_position (st : TradingState) (p : Position) : TradingState :=
  { st with positions := st.positions.map (fun q => if q.id = p.id then p else q) }

/-- `create_position`: insert, with the database assigning a fresh id. -/
def create_position (st : TradingState) (p : Position) : Position × TradingState :=
  let p' := { p with id := some st.next_id }
  (p', { st with positions := st.positions ++ [p'], next_id := st.next_id + 1 })

/-- `delete_position`: remove the position with the given id. -/
def delete_position (st : TradingState) (pid : ℕ) : TradingState :=
  { st with positions := st.positions.filter (fun q => q.id != some pid) }

/-- `create_order`: append-only insert of the order record, with a fresh id. -/
def create_order (st : TradingState) (o : Order) : Order × TradingState :=
  let o' := { o with id := some st.next_id }
  (o', { st with orders := st.orders ++ [o'], next_id := st.next_id + 1 })

end PaperTradingRepository

/-! ## Paper-trading service (src/paper_trading/service.rs) -/

namespace PaperTradingService

/-- `PaperTradingService::update_position_for_buy_order` (service.rs lines
137-175): average-cost update of an existing position, or creation of a new
long position at the fill price.  The source returns `Result` but this path
cannot fail. -/
def update_position_for_buy_order (st : TradingState) (order : Order)
    (price : ℚ) : Position × TradingState :=
  match PaperTradingRepository.get_position_by_user_and_symbol st order.symbol with
  | some position =>
      let total_quantity := position.quantity + order.quantity
      let total_cost := position.quantity * position.entry_price
        + order.quantity * price
      let position' := { position with
        entry_price := total_cost / total_quantity,
        quantity := total_quantity,
        current_price := price }
      (position', PaperTradingRepository.update_position st position')
  | none =>
      PaperTradingRepository.create_position st
        { id := none, symbol := order.symbol, quantity := order.quantity,
          entry_price := price, current_price := price, unrealized_pnl := 0,
          realized_pnl := 0, side := OrderSide.Buy }

/-- `PaperTradingService::update_position_for_sell_order` (service.rs lines
178-204): delete the position when sold out exactly, otherwise reduce the
quantity and accumulate the realized PnL. -/
def update_position_for_sell_order (st : TradingState) (order : Order)
    (position : Position) (price : ℚ) :
    Except AppError (Option Position × TradingState) :=
  let realized_pnl := (price - position.entry_price) * order.quantity
  if position.quantity = order.quantity then
    match position.id with
    | some position_id =>
        Except.ok (none, PaperTradingRepository.delete_position st position_id)
    | none => Except.error (AppError.ValidationError "Position ID not found")
  else
    let updated_position := { position with
      quantity := position.quantity - order.quantity,
      realized_pnl := position.realized_pnl + realized_pnl }
    Except.ok (some updated_position,
      PaperTradingRepository.update_position st updated_position)

/-- `PaperTradingService::create_order` (service.rs lines 40-134) with the
market price already resolved.  The returned state is the state after however
much of the operation executed, so an error result carries exactly the
partial effects the source would have persisted. -/
def create_order (st : TradingState) (req : CreateOrderRequest) (price : ℚ) :
    Except AppError Order × TradingState :=
  let order_cost := price * req.quantity
  let user_balance := st.balance
  let order : Order :=
    { id := none, symbol := req.symbol, order_type := req.order_type,
      side := req.side, quantity := req.quantity, price := some price,
      status := OrderStatus.Filled, position_id := none }
  match req.side with
  | OrderSide.Buy =>
      if order_cost > user_balance then
        (Except.error (AppError.ValidationError
          "Insufficient balance for this order"), st)
      else
        let st₁ := PaperTradingRepository.update_user_balance st
          (user_balance - order_cost)
        let pr := update_position_for_buy_order st₁ order price
        let order₁ := { order with position_id := pr.1.id }
        let cr := PaperTradingRepository.create_order pr.2 order₁
        (Except.ok cr.1, cr.2)
  | OrderSide.Sell =>
      match PaperTradingRepository.get_position_by_user_and_symbol st req.symbol with
      | none =>
          (Except.error (AppError.ValidationError "No position found for symbol"),
            st)
      | some pos =>
          if pos.quantity < req.quantity then
            (Except.error (AppError.ValidationError
              "Insufficient quantity to sell"), st)
          else
            let st₁ := PaperTradingRepository.update_user_balance st
              (user_balance + order_cost)
            match update_position_for_sell_order st₁ order pos price with
            | Except.error e => (Except.error e, st₁)
            | Except.ok (updated, st₂) =>
                let order₁ := { order with
                  position_id := (updated.map Position.id).join }
                let cr := PaperTradingRepository.create_order st₂ order₁
                (Except.ok cr.1, cr.2)

/-- A sequence of buy fills `(quantity, price)` on one symbol, each applied
through `update_position_for_buy_order` exactly as `create_order`'s buy branch
does. -/
def apply_buys (st : TradingState) (symbol : String) :
    List (ℚ × ℚ) → TradingState
  | [] => st
  | b :: rest =>
      let order : Order :=
        { id := none, symbol := symbol, order_type := OrderType.Market,
          side := OrderSide.Buy, quantity := b.1, price := some b.2,
          status := OrderStatus.Filled, position_id := none }
      apply_buys (update_position_for_buy_order st order b.2).2 symbol rest

/-- The report assembled by `get_user_balance_details` (service.rs lines
281-288). -/
structure BalanceDetails where
  cash_balance : ℚ
  position_value : ℚ
  unrealized_pnl : ℚ
  total_account_value : ℚ
  initial_balance : ℚ
  performance_percentage : ℚ
  deriving DecidableEq, Repr

/-- `PaperTradingService::get_user_balance_details` (service.rs lines
242-289), with the user's initial funding balance and the market-price lookup
supplied as inputs.  The accumulation loop over positions becomes sums over
the position list. -/
def get_user_balance_details (st : TradingState)
    (initial_paper_balance_usd : ℚ) (price_of : String → ℚ) : BalanceDetails :=
  let balance := st.balance
  let total_position_value :=
    (st.positions.map (fun p => p.quantity * price_of p.symbol)).sum
  let unrealized_pnl :=
    (st.positions.map (fun p => (price_of p.symbol - p.entry_price) * p.quantity)).sum
  let total_account_value := balance + total_position_value
  let performance := (total_account_value - initial_paper_balance_usd)
    / initial_paper_balance_usd * 100
  { cash_balance := balance, position_value := total_position_value,
    unrealized_pnl := unrealized_pnl, total_account_value := total_account_value,
    initial_balance := initial_paper_balance_usd,
    performance_percentage := performance }

/-- Modelled from the spec (spec.md §4.5, `getBalanceSummary`): the total
account value as the spec words it — cash balance plus the sum over open
positions of quantity times current price plus the sum of unrealized PnL.
Written from the spec's words, for comparison with the source-derived
`get_user_balance_details`. -/
def spec_total_account_value (st : TradingState) (price_of : String → ℚ) : ℚ :=
  st.balance + (st.positions.map (fun p => p.quantity * price_of p.symbol)).sum
    + (st.positions.map (fun p => (price_of p.symbol - p.entry_price) * p.quantity)).sum

end PaperTradingService

/-- Well-formedness of the stored positions, maintained by the database:
document ids are distinct, and every assigned id is below the next fresh
one. -/
def WF (st : TradingState) : Prop :=
  (st.positions.map Position.id).Nodup
    ∧ ∀ p ∈ st.positions, ∀ i, p.id = some i → i < st.next_id

/-! ## Strategy service (src/strategies/service.rs, src/strategies/model.rs) -/

/-- `StrategyType` (strategies/model.rs lines 7-11). -/
inductive StrategyType
  | MovingAverageCrossover
  | RSIStrategy
  | MACDStrategy
  deriving DecidableEq, Repr

/-- `StrategyStatus` (strategies/model.rs lines 13-18). -/
inductive StrategyStatus
  | Active
  | Paused
  | Stopped
  deriving DecidableEq, Repr

/-- `RiskParameters` (strategies/model.rs lines 37-46). -/
structure RiskParameters where
  max_position_size : ℚ
  max_total_positions : ℕ
  stop_loss_percentage : ℚ
  take_profit_percentage : ℚ
  max_daily_loss : ℚ
  trailing_stop_enabled : Bool
  trailing_stop_percentage : ℚ
  deriving DecidableEq, Repr

/-- `CreateStrategyRequest` (strategies/model.rs lines 48-59).  It carries no
status field.  The `serde_json::Value` parameter map is opaque to the core and
modelled as an uninterpreted payload string. -/
structure CreateStrategyRequest where
  name : String
  description : String
  strategy_type : StrategyType
  symbols : List String
  parameters : String
  risk_parameters : RiskParameters
  deriving DecidableEq, Repr

/-- `Strategy` (strategies/model.rs lines 20-35); timestamps elided except the
optional last-executed marker. -/
structure Strategy where
  id : Option ℕ
  user_id : ℕ
  name : String
  description : String
  strategy_type : StrategyType
  status : StrategyStatus
  symbols : List String
  parameters : String
  risk_parameters : RiskParameters
  last_executed_at : Option ℕ
  deriving DecidableEq, Repr

namespace StrategyService

/-- The in-memory registry and subscription state owned by `StrategyService`
(service.rs lines 30-32), together with the strategy collection of the
persistence gateway. -/
structure RegistryState where
  active_strategies : List (String × List String)
  strategy_cache : List (String × Strategy)
  subscriptions : List String
  db_strategies : List Strategy
  next_id : ℕ
  deriving DecidableEq, Repr

/-- `StrategyService::create_strategy` (service.rs lines 220-246): build the
strategy with status `Paused` unconditionally and insert it into the
database.  No registry map, cache, or market-data subscription is touched. -/
def create_strategy (st : RegistryState) (user_id : ℕ)
    (req : CreateStrategyRequest) : Strategy × RegistryState :=
  let strategy : Strategy :=
    { id := none, user_id := user_id, name := req.name,
      description := req.description, strategy_type := req.strategy_type,
      status := StrategyStatus.Paused, symbols := req.symbols,
      parameters := req.parameters, risk_parameters := req.risk_parameters,
      last_executed_at := none }
  let created := { strategy with id := some st.next_id }
  (created,
    { st with
        db_strategies := st.db_strategies ++ [created],
        next_id := st.next_id + 1 })

/-- The signal decision of `StrategyService::execute_rsi_strategy`
(service.rs lines 442-483), with the historical prices and the per-type
parameters (period and thresholds, defaults 14/30/70 supplied by the caller)
already extracted: compute the RSI sequence, compare its last two values
against the thresholds with strict inequalities. -/
def execute_rsi_strategy (price_data : List ℚ) (rsi_period : ℕ)
    (oversold_threshold overbought_threshold : ℚ) : Option OrderSide :=
  let rsi_values := RSIIndicator.calculate price_data rsi_period
  if rsi_values.length < 2 then none
  else
    let current_rsi := rsi_values.getD (rsi_values.length - 1) 0
    let previous_rsi := rsi_values.getD (rsi_values.length - 2) 0
    if previous_rsi < oversold_threshold ∧ current_rsi > oversold_threshold then
      some OrderSide.Buy
    else if previous_rsi > overbought_threshold
        ∧ current_rsi < overbought_threshold then
      some OrderSide.Sell
    else none

/-- The per-strategy loop of `StrategyService::process_price_update`
(service.rs lines 169-202): for each strategy id with a cache hit, execute it;
the `?` on the execution propagates the first error, abandoning the rest of
the batch.  Returns the ids successfully evaluated and the error that stopped
the loop, if any. -/
def process_price_update_loop (cached : String → Bool)
    (execute : String → Except AppError Unit) :
    List String → List String × Option AppError
  | [] => ([], none)
  | sid :: rest =>
      if cached sid then
        match execute sid with
        | Except.error e => ([], some e)
        | Except.ok _ =>
            let r := process_price_update_loop cached execute rest
            (sid :: r.1, r.2)
      else process_price_update_loop cached execute rest

/-- The inner symbol loop of `StrategyService::execute_strategies`
(service.rs lines 373-385): evaluate one strategy for each of its symbols,
stopping at the first error (the `?`). -/
def execute_symbols (execute : String → String → Except AppError Unit)
    (sid : String) : List String → List (String × String) × Option AppError
  | [] => ([], none)
  | sym :: rest =>
      match execute sid sym with
      | Except.error e => ([], some e)
      | Except.ok _ =>
          let r := execute_symbols execute sid rest
          ((sid, sym) :: r.1, r.2)

/-- The outer loop of `StrategyService::execute_strategies` (service.rs lines
365-394) over all active strategies: an error from any (strategy, symbol)
evaluation propagates and abandons the remaining strategies.  Returns the
(strategy, symbol) pairs successfully evaluated and the stopping error, if
any. -/
def execute_strategies_loop (execute : String → String → Except AppError Unit) :
    List (String × List String) → List (String × String) × Option AppError
  | [] => ([], none)
  | s :: rest =>
      let r := execute_symbols execute s.1 s.2
      match r.2 with
      | some e => (r.1, some e)
      | none =>
          let r' := execute_strategies_loop execute rest
          (r.1 ++ r'.1, r'.2)

end StrategyService

/-! ## Concrete fixtures used to instantiate the theorems -/

/-- A stored position: 5 units of BTCUSDT at entry price 10, with 1 of
realized PnL from earlier partial closes. -/
def examplePosition : Position :=
  { id := some 3, symbol := "BTCUSDT", quantity := 5, entry_price := 10,
    current_price := 12, unrealized_pnl := 0, realized_pnl := 1,
    side := OrderSide.Buy }

/-- A user state holding `examplePosition` and 100 in cash. -/
def exampleState : TradingState :=
  { balance := 100, positions := [examplePosition], orders := [], next_id := 4 }

/-- A market sell of the full 5 units. -/
def exampleSellAll : Order :=
  { id := none, symbol := "BTCUSDT", order_type := OrderType.Market,
    side := OrderSide.Sell, quantity := 5, price := some 12,
    status := OrderStatus.Filled, position_id := none }

/-- A market sell of 2 of the 5 units. -/
def exampleSellPart : Order :=
  { id := none, symbol := "BTCUSDT", order_type := OrderType.Market,
    side := OrderSide.Sell, quantity := 2, price := some 12,
    status := OrderStatus.Filled, position_id := none }

/-- A stored position: 1 unit of BTCUSDT bought at entry price 10. -/
def examplePositionB : Position :=
  { id := some 0, symbol := "BTCUSDT", quantity := 1, entry_price := 10,
    current_price := 10, unrealized_pnl := 0, realized_pnl := 0,
    side := OrderSide.Buy }

/-- A user state holding `examplePositionB` and 100 in cash. -/
def exampleStateB : TradingState :=
  { balance := 100, positions := [examplePositionB], orders := [], next_id := 1 }

/-- An empty user state with 100 in cash. -/
def emptyState : TradingState :=
  { balance := 100, positions := [], orders := [], next_id := 0 }

/-- A buy request for 2 units. -/
def exampleBuyReq : CreateOrderRequest :=
  { symbol := "BTCUSDT", order_type := OrderType.Market,
    side := OrderSide.Buy, quantity := 2 }

/-! ## C7 -/

/-- C7: for every price sequence strictly shorter than the period, SMA, EMA
and RSI each return the empty sequence (moving_average.rs lines 10-11 and
27-28 test `prices.len() < period`; rsi.rs line 9 tests the weaker
`prices.len() <= period`). -/
theorem short_input_yields_empty (prices : List ℚ) (period : ℕ)
    (h : prices.length < period) :
    MovingAverageIndicator.calculate_sma prices period = []
    ∧ MovingAverageIndicator.calculate_ema prices period = []
    ∧ RSIIndicator.calculate prices period = [] := by
  refine ⟨?_, ?_, ?_⟩
  · simp [MovingAverageIndicator.calculate_sma, h]
  · simp [MovingAverageIndicator.calculate_ema, h]
  · simp [RSIIndicator.calculate, Nat.le_of_lt h]

/-- Witness for C7 at a concrete short input. -/
theorem short_input_yields_empty_witness :
    ([(3 : ℚ), 4].length < 5)
    ∧ (MovingAverageIndicator.calculate_sma [(3 : ℚ), 4] 5 = []
       ∧ MovingAverageIndicator.calculate_ema [(3 : ℚ), 4] 5 = []
       ∧ RSIIndicator.calculate [(3 : ℚ), 4] 5 = []) :=
  ⟨by decide, short_input_yields_empty [(3 : ℚ), 4] 5 (by decide)⟩

/-! ## C9 -/

/-- `emaLoop` produces one output per input price. -/
theorem emaLoop_length (m prev : ℚ) (ps : List ℚ) :
    (MovingAverageIndicator.emaLoop m prev ps).length = ps.length := by
  induction ps generalizing prev with
  | nil => rfl
  | cons p ps ih => simp [MovingAverageIndicator.emaLoop, ih]

/-- When the input is long enough, the EMA has `len - period + 1` values. -/
theorem calculate_ema_length (prices : List ℚ) (period : ℕ)
    (h : period ≤ prices.length) :
    (MovingAverageIndicator.calculate_ema prices period).length
      = prices.length - period + 1 := by
  rw [MovingAverageIndicator.calculate_ema, if_neg (by omega)]
  simp only [List.length_cons, emaLoop_length, List.length_drop]

/-- C9: `MACDIndicator::calculate` is total only under the precondition
`fast_period <= slow_period`: whenever `slow_period < fast_period` and
`fast_period <= prices.len()` (both EMAs non-empty, the fast one shorter), the
alignment subtraction `fast_ema.len() - slow_ema.len()` (macd.rs line 29)
underflows and the call panics instead of returning — here, evaluates to
`none`. -/
theorem macd_panics_when_fast_exceeds_slow (prices : List ℚ)
    (fast_period slow_period signal_period : ℕ)
    (hlt : slow_period < fast_period) (hle : fast_period ≤ prices.length) :
    MACDIndicator.calculate prices fast_period slow_period signal_period
      = none := by
  have hslow : slow_period ≤ prices.length := le_of_lt (lt_of_lt_of_le hlt hle)
  have hf := calculate_ema_length prices fast_period hle
  have hs := calculate_ema_length prices slow_period hslow
  rw [MACDIndicator.calculate]
  rw [if_neg, if_pos]
  · omega
  · rw [List.isEmpty_iff_length_eq_zero, List.isEmpty_iff_length_eq_zero]
    omega

/-- Witness for C9 at a concrete input: fast period 2, slow period 1 over
three prices. -/
theorem macd_panics_when_fast_exceeds_slow_witness :
    (1 < 2 ∧ 2 ≤ [(1 : ℚ), 2, 3].length)
    ∧ MACDIndicator.calculate [(1 : ℚ), 2, 3] 2 1 1 = none :=
  ⟨⟨by decide, by decide⟩,
    macd_panics_when_fast_exceeds_slow [(1 : ℚ), 2, 3] 2 1 1 (by decide)
      (by decide)⟩

/-! ## C8 -/

/-- Gains are never negative. -/
theorem gain_nonneg (c : ℚ) : 0 ≤ RSIIndicator.gain c := by
  rw [RSIIndicator.gain]; split <;> linarith

/-- Losses are never negative. -/
theorem loss_nonneg (c : ℚ) : 0 ≤ RSIIndicator.loss c := by
  rw [RSIIndicator.loss]; split <;> linarith

/-- The RSI formula lands in [0, 100] whenever the running averages are
non-negative: the clamped divisor `max avgLoss 0.00001` is positive, so the
ratio is non-negative and `100/(1 + ratio)` lies in (0, 100]. -/
theorem rsiOf_bounds (g l : ℚ) (hg : 0 ≤ g) (hl : 0 ≤ l) :
    0 ≤ RSIIndicator.rsiOf g l ∧ RSIIndicator.rsiOf g l ≤ 100 := by
  have hd : (0 : ℚ) < max l (1 / 100000) :=
    lt_max_of_lt_right (by norm_num)
  have hx : 0 ≤ g / max l (1 / 100000) := div_nonneg hg hd.le
  have h1 : (0 : ℚ) < 1 + g / max l (1 / 100000) := by linarith
  constructor
  · rw [RSIIndicator.rsiOf, sub_nonneg, div_le_iff₀ h1]
    nlinarith
  · rw [RSIIndicator.rsiOf]
    have : 0 ≤ 100 / (1 + g / max l (1 / 100000)) :=
      div_nonneg (by norm_num) h1.le
    linarith

/-- Every value produced by the Wilder-smoothing loop lies in [0, 100],
provided the period is positive, the incoming averages are non-negative and
every remaining (gain, loss) pair is non-negative. -/
theorem rsiLoop_bounds (period : ℕ) (hp : 0 < period) :
    ∀ (pairs : List (ℚ × ℚ)) (ag al : ℚ), 0 ≤ ag → 0 ≤ al →
      (∀ gl ∈ pairs, 0 ≤ gl.1 ∧ 0 ≤ gl.2) →
      ∀ r ∈ RSIIndicator.rsiLoop period ag al pairs, 0 ≤ r ∧ r ≤ 100 := by
  intro pairs
  induction pairs with
  | nil => intro ag al _ _ _ r hr; simp [RSIIndicator.rsiLoop] at hr
  | cons gl rest ih =>
    intro ag al hag hal hmem r hr
    have hperiod1 : (1 : ℚ) ≤ (period : ℚ) := by exact_mod_cast hp
    have hgl := hmem gl (List.mem_cons_self gl rest)
    have hag' : 0 ≤ (ag * ((period : ℚ) - 1) + gl.1) / (period : ℚ) :=
      div_nonneg (by nlinarith [hgl.1]) (by positivity)
    have hal' : 0 ≤ (al * ((period : ℚ) - 1) + gl.2) / (period : ℚ) :=
      div_nonneg (by nlinarith [hgl.2]) (by positivity)
    rw [RSIIndicator.rsiLoop] at hr
    simp only [List.mem_cons] at hr
    rcases hr with hr | hr
    · subst hr; exact rsiOf_bounds _ _ hag' hal'
    · exact ih _ _ hag' hal'
        (fun x hx => hmem x (List.mem_cons_of_mem gl hx)) r hr

/-- Elements of the mapped gains list are non-negative. -/
theorem mem_gains_nonneg (prices : List ℚ) (x : ℚ)
    (hx : x ∈ (RSIIndicator.changes prices).map RSIIndicator.gain) : 0 ≤ x := by
  rcases List.mem_map.mp hx with ⟨c, _, rfl⟩
  exact gain_nonneg c

/-- Elements of the mapped losses list are non-negative. -/
theorem mem_losses_nonneg (prices : List ℚ) (x : ℚ)
    (hx : x ∈ (RSIIndicator.changes prices).map RSIIndicator.loss) : 0 ≤ x := by
  rcases List.mem_map.mp hx with ⟨c, _, rfl⟩
  exact loss_nonneg c

/-- C8: for every finite non-negative price sequence and positive period,
every element of the RSI output lies within [0, 100] (rsi.rs lines 8-47). -/
theorem rsi_output_in_range (prices : List ℚ) (period : ℕ)
    (hp : 0 < period) (hnn : ∀ p ∈ prices, 0 ≤ p) :
    ∀ r ∈ RSIIndicator.calculate prices period, 0 ≤ r ∧ r ≤ 100 := by
  intro r hr
  rw [RSIIndicator.calculate] at hr
  split at hr
  · simp at hr
  · have hgain : 0 ≤ (((RSIIndicator.changes prices).map RSIIndicator.gain).take
        period).sum / (period : ℚ) := by
      refine div_nonneg (List.sum_nonneg ?_) (by positivity)
      intro x hx
      exact mem_gains_nonneg prices x (List.mem_of_mem_take hx)
    have hloss : 0 ≤ (((RSIIndicator.changes prices).map RSIIndicator.loss).take
        period).sum / (period : ℚ) := by
      refine div_nonneg (List.sum_nonneg ?_) (by positivity)
      intro x hx
      exact mem_losses_nonneg prices x (List.mem_of_mem_take hx)
    simp only [List.mem_cons] at hr
    rcases hr with hr | hr
    · subst hr; exact rsiOf_bounds _ _ hgain hloss
    · refine rsiLoop_bounds period hp _ _ _ hgain hloss ?_ r hr
      intro gl hgl
      rcases List.of_mem_zip hgl with ⟨h1, h2⟩
      exact ⟨mem_gains_nonneg prices _ (List.mem_of_mem_drop h1),
        mem_losses_nonneg prices _ (List.mem_of_mem_drop h2)⟩

/-- Witness for C8 at a concrete input. -/
theorem rsi_output_in_range_witness :
    (0 < 1 ∧ (∀ p ∈ [(3 : ℚ), 2, 3], 0 ≤ p))
    ∧ ∀ r ∈ RSIIndicator.calculate [(3 : ℚ), 2, 3] 1, 0 ≤ r ∧ r ≤ 100 :=
  ⟨⟨by decide, by decide⟩,
    rsi_output_in_range [(3 : ℚ), 2, 3] 1 (by decide) (by decide)⟩

/-! ## C10 -/

/-- C10: every strategy returned by `create_strategy` has status `Paused`
(the request carries no status field and service.rs line 235 sets `Paused`
unconditionally), and creating a strategy never touches the active-strategies
index, the strategy cache, or the market-data subscriptions. -/
theorem create_strategy_starts_paused (st : StrategyService.RegistryState)
    (user_id : ℕ) (req : CreateStrategyRequest) :
    (StrategyService.create_strategy st user_id req).1.status
        = StrategyStatus.Paused
    ∧ (StrategyService.create_strategy st user_id req).2.active_strategies
        = st.active_strategies
    ∧ (StrategyService.create_strategy st user_id req).2.strategy_cache
        = st.strategy_cache
    ∧ (StrategyService.create_strategy st user_id req).2.subscriptions
        = st.subscriptions :=
  ⟨rfl, rfl, rfl, rfl⟩

/-! ## C1 -/

/-- C1: a buy whose cost `price * quantity` exceeds the current cash balance
is rejected (service.rs lines 82-86; the source realizes the spec's
`InsufficientBalance` as `ValidationError("Insufficient balance for this
order")`), and the returned state is exactly the pre-call state: no balance,
position, or order mutation happens — the check precedes every write. -/
theorem buy_insufficient_balance_rejected (st : TradingState)
    (req : CreateOrderRequest) (price : ℚ) (hside : req.side = OrderSide.Buy)
    (hcost : price * req.quantity > st.balance) :
    PaperTradingService.create_order st req price
      = (Except.error (AppError.ValidationError
          "Insufficient balance for this order"), st) := by
  simp only [PaperTradingService.create_order, hside]
  rw [if_pos hcost]

/-- Witness for C1: buying 2 units at price 60 with only 100 in cash. -/
theorem buy_insufficient_balance_rejected_witness :
    (exampleBuyReq.side = OrderSide.Buy
      ∧ (60 : ℚ) * exampleBuyReq.quantity > emptyState.balance)
    ∧ PaperTradingService.create_order emptyState exampleBuyReq 60
      = (Except.error (AppError.ValidationError
          "Insufficient balance for this order"), emptyState) :=
  ⟨⟨rfl, by norm_num [exampleBuyReq, emptyState]⟩,
    buy_insufficient_balance_rejected emptyState exampleBuyReq 60 rfl
      (by norm_num [exampleBuyReq, emptyState])⟩

/-! ## C2 -/

/-- C2: for a sell against an existing position (one fetched from the
database, hence carrying an id) holding at least the requested quantity:
selling exactly the held quantity deletes the position (service.rs lines
186-193), and selling less leaves `quantity = old - sold` and adds
`(price - entry_price) * sold` to the realized PnL (lines 194-203). -/
theorem sell_updates_position (st : TradingState) (order : Order)
    (position : Position) (price : ℚ) (pid : ℕ)
    (hid : position.id = some pid) :
    (position.quantity = order.quantity →
      PaperTradingService.update_position_for_sell_order st order position price
          = Except.ok (none, PaperTradingRepository.delete_position st pid)
        ∧ ∀ q ∈ (PaperTradingRepository.delete_position st pid).positions,
            q.id ≠ some pid)
    ∧ (order.quantity < position.quantity →
      PaperTradingService.update_position_for_sell_order st order position price
          = Except.ok (some { position with
              quantity := position.quantity - order.quantity,
              realized_pnl := position.realized_pnl
                + (price - position.entry_price) * order.quantity },
            PaperTradingRepository.update_position st { position with
              quantity := position.quantity - order.quantity,
              realized_pnl := position.realized_pnl
                + (price - position.entry_price) * order.quantity })) := by
  constructor
  · intro heq
    constructor
    · simp [PaperTradingService.update_position_for_sell_order, heq, hid]
    · intro q hq
      have hmem := List.mem_filter.mp hq
      simpa using hmem.2
  · intro hlt
    have hne : position.quantity ≠ order.quantity := ne_of_gt hlt
    simp [PaperTradingService.update_position_for_sell_order, hne]

/-- Witness for C2: a position of 5 units at entry 10, sold at price 12 —
once selling all 5 (deletion), once selling 2 (reduction and realized PnL
`(12 - 10) * 2 = 4` added to the prior realized PnL of 1). -/
theorem sell_updates_position_witness :
    PaperTradingService.update_position_for_sell_order exampleState
        exampleSellAll examplePosition 12
      = Except.ok (none, PaperTradingRepository.delete_position exampleState 3)
    ∧ PaperTradingService.update_position_for_sell_order exampleState
        exampleSellPart examplePosition 12
      = Except.ok (some { examplePosition with
            quantity := examplePosition.quantity - exampleSellPart.quantity,
            realized_pnl := examplePosition.realized_pnl
              + (12 - examplePosition.entry_price) * exampleSellPart.quantity },
          PaperTradingRepository.update_position exampleState
            { examplePosition with
              quantity := examplePosition.quantity - exampleSellPart.quantity,
              realized_pnl := examplePosition.realized_pnl
                + (12 - examplePosition.entry_price) * exampleSellPart.quantity }) :=
  ⟨((sell_updates_position exampleState exampleSellAll examplePosition 12 3
      rfl).1 rfl).1,
    (sell_updates_position exampleState exampleSellPart examplePosition 12 3
      rfl).2 (by norm_num [exampleSellPart, examplePosition])⟩

/-! ## C4 -/

/-- C4 counterexample: with 100 cash, one position of quantity 1 bought at
entry price 10, and a current price of 20, the code returns total account
value `100 + 1*20 = 120` (service.rs line 277 adds only cash and position
value), while the claimed formula cash + Σ(quantity × price) + Σ unrealized
PnL gives `100 + 20 + 10 = 130`: the returned total does not include the
unrealized PnL sum. -/
theorem balance_summary_counterexample :
    (PaperTradingService.get_user_balance_details exampleStateB 100
        (fun _ => 20)).total_account_value
      ≠ PaperTradingService.spec_total_account_value exampleStateB
          (fun _ => 20) := by
  norm_num [PaperTradingService.get_user_balance_details,
    PaperTradingService.spec_total_account_value, exampleStateB,
    examplePositionB]

/-- C4 amended: `get_user_balance_details` returns a total account value of
cash balance plus Σ(quantity × current price) — the unrealized PnL sum is
computed and reported as its own field but not added into the total (it is
already contained in the position value) — and the performance percentage is
derived by comparing that total against the initial funding balance.  The
spec's formula exceeds the returned total by exactly the unrealized PnL
sum. -/
theorem balance_summary_formula (st : TradingState) (initial : ℚ)
    (price_of : String → ℚ) :
    (PaperTradingService.get_user_balance_details st initial
        price_of).total_account_value
        = st.balance
          + (st.positions.map (fun p => p.quantity * price_of p.symbol)).sum
    ∧ (PaperTradingService.get_user_balance_details st initial
        price_of).unrealized_pnl
        = (st.positions.map
            (fun p => (price_of p.symbol - p.entry_price) * p.quantity)).sum
    ∧ (PaperTradingService.get_user_balance_details st initial
        price_of).performance_percentage
        = ((PaperTradingService.get_user_balance_details st initial
            price_of).total_account_value - initial) / initial * 100
    ∧ PaperTradingService.spec_total_account_value st price_of
        = (PaperTradingService.get_user_balance_details st initial
            price_of).total_account_value
          + (PaperTradingService.get_user_balance_details st initial
              price_of).unrealized_pnl :=
  ⟨rfl, rfl, rfl, rfl⟩

/-! ## C5 -/

/-- C5 counterexample: over prices [3, 2, 3] with period 1 the two RSI values
are 0 and 10000000/100001; with the oversold threshold set exactly to the
current value (and overbought at 200), the previous value is below the
threshold and the current value equals it, so the claim predicts a Buy —
but the strict comparison `current_rsi > oversold_threshold` (service.rs line
474) produces no signal. -/
theorem rsi_signal_counterexample :
    2 ≤ (RSIIndicator.calculate [(3 : ℚ), 2, 3] 1).length
    ∧ (RSIIndicator.calculate [(3 : ℚ), 2, 3] 1).getD
        ((RSIIndicator.calculate [(3 : ℚ), 2, 3] 1).length - 2) 0
        < 10000000 / 100001
    ∧ (RSIIndicator.calculate [(3 : ℚ), 2, 3] 1).getD
        ((RSIIndicator.calculate [(3 : ℚ), 2, 3] 1).length - 1) 0
        = 10000000 / 100001
    ∧ StrategyService.execute_rsi_strategy [(3 : ℚ), 2, 3] 1
        (10000000 / 100001) 200 = none := by
  have hcalc : RSIIndicator.calculate [(3 : ℚ), 2, 3] 1
      = [0, 10000000 / 100001] := by
    norm_num [RSIIndicator.calculate, RSIIndicator.changes, RSIIndicator.gain,
      RSIIndicator.loss, RSIIndicator.rsiOf, RSIIndicator.rsiLoop, max_def]
  refine ⟨by rw [hcalc]; decide, ?_, ?_, ?_⟩
  · rw [hcalc]; norm_num
  · rw [hcalc]; rfl
  · simp only [StrategyService.execute_rsi_strategy, hcalc]
    norm_num

/-- C5 amended: with at least two computed RSI values, a Buy signal is
produced exactly when previous RSI < oversold threshold AND current RSI is
strictly greater than the oversold threshold, and a Sell signal exactly when
the Buy condition fails, previous RSI > overbought threshold AND current RSI
is strictly less than the overbought threshold; a current value exactly equal
to a threshold never fires (service.rs lines 474 and 478 compare strictly). -/
theorem rsi_signal_strict_thresholds (price_data : List ℚ) (rsi_period : ℕ)
    (os ob : ℚ)
    (h2 : 2 ≤ (RSIIndicator.calculate price_data rsi_period).length) :
    (StrategyService.execute_rsi_strategy price_data rsi_period os ob
        = some OrderSide.Buy
      ↔ (RSIIndicator.calculate price_data rsi_period).getD
            ((RSIIndicator.calculate price_data rsi_period).length - 2) 0 < os
        ∧ (RSIIndicator.calculate price_data rsi_period).getD
            ((RSIIndicator.calculate price_data rsi_period).length - 1) 0 > os)
    ∧ (StrategyService.execute_rsi_strategy price_data rsi_period os ob
        = some OrderSide.Sell
      ↔ ¬((RSIIndicator.calculate price_data rsi_period).getD
              ((RSIIndicator.calculate price_data rsi_period).length - 2) 0 < os
          ∧ (RSIIndicator.calculate price_data rsi_period).getD
              ((RSIIndicator.calculate price_data rsi_period).length - 1) 0 > os)
        ∧ ((RSIIndicator.calculate price_data rsi_period).getD
              ((RSIIndicator.calculate price_data rsi_period).length - 2) 0 > ob
          ∧ (RSIIndicator.calculate price_data rsi_period).getD
              ((RSIIndicator.calculate price_data rsi_period).length - 1) 0 < ob)) := by
  simp only [StrategyService.execute_rsi_strategy]
  rw [if_neg (by omega)]
  split_ifs with hbuy hsell
  · exact ⟨iff_of_true rfl hbuy,
      iff_of_false (by simp) (fun h => h.1 hbuy)⟩
  · exact ⟨iff_of_false (by simp) hbuy, iff_of_true rfl ⟨hbuy, hsell⟩⟩
  · exact ⟨iff_of_false (by simp) hbuy,
      iff_of_false (by simp) (fun h => hsell h.2)⟩

/-- Witness for C5 (amended) at prices [3, 2, 3], period 1, thresholds 30/70:
previous RSI 0 is below 30 and current RSI 10000000/100001 is strictly above
30, so the Buy equivalence and the Sell equivalence hold as computed. -/
theorem rsi_signal_strict_thresholds_witness :
    (StrategyService.execute_rsi_strategy [(3 : ℚ), 2, 3] 1 30 70
        = some OrderSide.Buy
      ↔ (RSIIndicator.calculate [(3 : ℚ), 2, 3] 1).getD
            ((RSIIndicator.calculate [(3 : ℚ), 2, 3] 1).length - 2) 0 < 30
        ∧ (RSIIndicator.calculate [(3 : ℚ), 2, 3] 1).getD
            ((RSIIndicator.calculate [(3 : ℚ), 2, 3] 1).length - 1) 0 > 30)
    ∧ (StrategyService.execute_rsi_strategy [(3 : ℚ), 2, 3] 1 30 70
        = some OrderSide.Sell
      ↔ ¬((RSIIndicator.calculate [(3 : ℚ), 2, 3] 1).getD
              ((RSIIndicator.calculate [(3 : ℚ), 2, 3] 1).length - 2) 0 < 30
          ∧ (RSIIndicator.calculate [(3 : ℚ), 2, 3] 1).getD
              ((RSIIndicator.calculate [(3 : ℚ), 2, 3] 1).length - 1) 0 > 30)
        ∧ ((RSIIndicator.calculate [(3 : ℚ), 2, 3] 1).getD
              ((RSIIndicator.calculate [(3 : ℚ), 2, 3] 1).length - 2) 0 > 70
          ∧ (RSIIndicator.calculate [(3 : ℚ), 2, 3] 1).getD
              ((RSIIndicator.calculate [(3 : ℚ), 2, 3] 1).length - 1) 0 < 70)) :=
  rsi_signal_strict_thresholds [(3 : ℚ), 2, 3] 1 30 70 (by decide)

/-! ## C6 -/

/-- C6 counterexample: two active strategies, the first of which fails during
evaluation.  On the tick path (service.rs lines 169-202) and on the
timer path (lines 365-394) alike, the `?` aborts the batch: the evaluated
trace is empty — the second strategy is never evaluated, contrary to the
claimed per-strategy isolation. -/
theorem batch_error_isolation_counterexample :
    StrategyService.process_price_update_loop (fun _ => true)
        (fun sid => if sid = "s1"
          then Except.error (AppError.InternalError "boom")
          else Except.ok ()) ["s1", "s2"]
      = ([], some (AppError.InternalError "boom"))
    ∧ StrategyService.execute_strategies_loop
        (fun sid _ => if sid = "s1"
          then Except.error (AppError.InternalError "boom")
          else Except.ok ()) [("s1", ["BTCUSDT"]), ("s2", ["BTCUSDT"])]
      = ([], some (AppError.InternalError "boom")) := by
  constructor <;> rfl

/-- C6 amended: a failure while evaluating one strategy aborts the rest of
the batch on both paths: every strategy before the failing one is evaluated,
the error propagates, and every strategy after the failing one is skipped
(the tick path's caller merely logs the propagated error, service.rs lines
54-58). -/
theorem batch_error_aborts_rest (execute : String → Except AppError Unit)
    (e : AppError) (bad : String) (pre post : List String)
    (hpre : ∀ s ∈ pre, execute s = Except.ok ())
    (hbad : execute bad = Except.error e) :
    StrategyService.process_price_update_loop (fun _ => true) execute
        (pre ++ bad :: post) = (pre, some e)
    ∧ StrategyService.execute_strategies_loop (fun sid _ => execute sid)
        ((pre ++ bad :: post).map (fun s => (s, ["BTCUSDT"])))
      = (pre.map (fun s => (s, "BTCUSDT")), some e) := by
  induction pre with
  | nil =>
      constructor
      · simp [StrategyService.process_price_update_loop, hbad]
      · simp [StrategyService.execute_strategies_loop,
          StrategyService.execute_symbols, hbad]
  | cons a rest ih =>
      have ha : execute a = Except.ok () := hpre a (List.mem_cons_self a rest)
      have ih' := ih (fun s hs => hpre s (List.mem_cons_of_mem a hs))
      constructor
      · simp [StrategyService.process_price_update_loop, ha, ih'.1]
      · have h2' := ih'.2
        simp only [List.map_append, List.map_cons] at h2'
        simp [StrategyService.execute_strategies_loop,
          StrategyService.execute_symbols, ha, h2']

/-- Witness for C6 (amended): strategy "s0" succeeds, "s1" fails, "s2" is
behind the failure; the traces show "s0" evaluated and "s2" skipped. -/
theorem batch_error_aborts_rest_witness :
    StrategyService.process_price_update_loop (fun _ => true)
        (fun sid => if sid = "s1"
          then Except.error (AppError.InternalError "boom")
          else Except.ok ()) (["s0"] ++ "s1" :: ["s2"])
      = (["s0"], some (AppError.InternalError "boom"))
    ∧ StrategyService.execute_strategies_loop
        (fun sid _ => (fun s => if s = "s1"
          then Except.error (AppError.InternalError "boom")
          else Except.ok ()) sid)
        ((["s0"] ++ "s1" :: ["s2"]).map (fun s => (s, ["BTCUSDT"])))
      = (["s0"].map (fun s => (s, "BTCUSDT")),
          some (AppError.InternalError "boom")) :=
  batch_error_aborts_rest
    (fun sid => if sid = "s1"
      then Except.error (AppError.InternalError "boom")
      else Except.ok ())
    (AppError.InternalError "boom") "s1" ["s0"] ["s2"]
    (by intro s hs; fin_cases hs <;> rfl) rfl

/-! ## C3 -/

/-- Replacing the position with a matching id leaves the list of stored ids
unchanged: the replacement carries the same id as whatever it replaces. -/
theorem map_id_replace (l : List Position) (p' : Position) :
    (l.map (fun q => if q.id = p'.id then p' else q)).map Position.id
      = l.map Position.id := by
  induction l with
  | nil => rfl
  | cons a l ih =>
      by_cases h : a.id = p'.id
      · simp [h, ih]
      · simp [h, ih]

/-- If a symbol lookup finds `p` in a list with distinct ids, then after
replacing the position with id `p'.id = p.id` the same lookup finds `p'`
(which keeps the symbol of `p`). -/
theorem find?_replace (l : List Position) (p p' : Position) (s : String)
    (hnd : (l.map Position.id).Nodup)
    (hfind : l.find? (fun q => q.symbol == s) = some p)
    (hid : p'.id = p.id) (hsym : p'.symbol = p.symbol) :
    (l.map (fun q => if q.id = p'.id then p' else q)).find?
      (fun q => q.symbol == s) = some p' := by
  induction l with
  | nil => simp at hfind
  | cons a l ih =>
      simp only [List.map_cons, List.nodup_cons] at hnd
      by_cases ha : (a.symbol == s) = true
      · rw [@List.find?_cons_of_pos _ (fun q => q.symbol == s) a l ha] at hfind
        have hap : a = p := by injection hfind
        subst hap
        rw [List.map_cons, if_pos hid.symm]
        exact @List.find?_cons_of_pos _ (fun q => q.symbol == s) p'
          (l.map (fun q => if q.id = p'.id then p' else q))
          (by show (p'.symbol == s) = true; rw [hsym]; exact ha)
      · rw [@List.find?_cons_of_neg _ (fun q => q.symbol == s) a l ha] at hfind
        have hp : p ∈ l := List.mem_of_find?_eq_some hfind
        have hane : ¬(a.id = p'.id) := by
          rw [hid]
          intro hcon
          have : a.id ∈ l.map Position.id := by
            rw [hcon]; exact List.mem_map_of_mem _ hp
          exact hnd.1 this
        rw [List.map_cons, if_neg hane,
          @List.find?_cons_of_neg _ (fun q => q.symbol == s) a
            (l.map (fun q => if q.id = p'.id then p' else q)) ha]
        exact ih hnd.2 hfind

/-- Appending a position for a symbol that had none makes the symbol lookup
find it. -/
theorem find?_append_single (l : List Position) (x : Position) (s : String)
    (h : l.find? (fun q => q.symbol == s) = none)
    (hx : (x.symbol == s) = true) :
    (l ++ [x]).find? (fun q => q.symbol == s) = some x := by
  rw [List.find?_append, h]
  simp [hx]

/-- Core induction for C3: starting from a well-formed state whose lookup for
`symbol` already finds a position `p` of positive quantity, a sequence of
buys with positive quantities keeps a position for the symbol whose quantity
grows by the bought quantities and whose cost (quantity times entry price)
grows by the bought cost. -/
theorem apply_buys_existing (symbol : String) :
    ∀ (buys : List (ℚ × ℚ)) (st : TradingState) (p : Position), WF st →
      st.positions.find? (fun q => q.symbol == symbol) = some p →
      p.symbol = symbol → 0 < p.quantity → (∀ b ∈ buys, 0 < b.1) →
      ∃ p', (PaperTradingService.apply_buys st symbol buys).positions.find?
              (fun q => q.symbol == symbol) = some p'
        ∧ p'.quantity = p.quantity + (buys.map Prod.fst).sum
        ∧ p'.quantity * p'.entry_price
            = p.quantity * p.entry_price + (buys.map (fun b => b.1 * b.2)).sum := by
  intro buys
  induction buys with
  | nil =>
      intro st p _ hfind _ _ _
      exact ⟨p, hfind, by simp, by simp⟩
  | cons b rest ih =>
      intro st p hwf hfind hsym hq hb
      have hb1 : 0 < b.1 := hb b (List.mem_cons_self b rest)
      have hbrest : ∀ x ∈ rest, 0 < x.1 :=
        fun x hx => hb x (List.mem_cons_of_mem b hx)
      have hqb : (0 : ℚ) < p.quantity + b.1 := add_pos hq hb1
      have hp : p ∈ st.positions := List.mem_of_find?_eq_some hfind
      have hstep : PaperTradingService.apply_buys st symbol (b :: rest)
          = PaperTradingService.apply_buys
              (PaperTradingRepository.update_position st
                { p with
                  entry_price := (p.quantity * p.entry_price + b.1 * b.2)
                    / (p.quantity + b.1),
                  quantity := p.quantity + b.1,
                  current_price := b.2 }) symbol rest := by
        simp only [PaperTradingService.apply_buys,
          PaperTradingService.update_position_for_buy_order,
          PaperTradingRepository.get_position_by_user_and_symbol, hfind]
      have hwf₂ : WF (PaperTradingRepository.update_position st
          { p with
            entry_price := (p.quantity * p.entry_price + b.1 * b.2)
              / (p.quantity + b.1),
            quantity := p.quantity + b.1, current_price := b.2 }) := by
        constructor
        · show ((st.positions.map _).map Position.id).Nodup
          rw [map_id_replace]
          exact hwf.1
        · intro q hq i hqi
          rcases List.mem_map.mp hq with ⟨x, hx, rfl⟩
          by_cases hxe : x.id = ({ p with
              entry_price := (p.quantity * p.entry_price + b.1 * b.2)
                / (p.quantity + b.1),
              quantity := p.quantity + b.1,
              current_price := b.2 } : Position).id
          · rw [if_pos hxe] at hqi
            exact hwf.2 p hp i hqi
          · rw [if_neg hxe] at hqi
            exact hwf.2 x hx i hqi
      have hfind₂ : (PaperTradingRepository.update_position st
          { p with
            entry_price := (p.quantity * p.entry_price + b.1 * b.2)
              / (p.quantity + b.1),
            quantity := p.quantity + b.1,
            current_price := b.2 }).positions.find?
            (fun q => q.symbol == symbol)
          = some { p with
              entry_price := (p.quantity * p.entry_price + b.1 * b.2)
                / (p.quantity + b.1),
              quantity := p.quantity + b.1, current_price := b.2 } :=
        find?_replace st.positions p _ symbol hwf.1 hfind rfl rfl
      obtain ⟨p', hfind', hq', hc'⟩ := ih
        (PaperTradingRepository.update_position st
          { p with
            entry_price := (p.quantity * p.entry_price + b.1 * b.2)
              / (p.quantity + b.1),
            quantity := p.quantity + b.1, current_price := b.2 })
        { p with
          entry_price := (p.quantity * p.entry_price + b.1 * b.2)
            / (p.quantity + b.1),
          quantity := p.quantity + b.1, current_price := b.2 }
        hwf₂ hfind₂ hsym hqb hbrest
      refine ⟨p', by rw [hstep]; exact hfind', ?_, ?_⟩
      · rw [hq']
        simp only [List.map_cons, List.sum_cons]
        ring
      · rw [hc']
        have hcost : (p.quantity + b.1)
            * ((p.quantity * p.entry_price + b.1 * b.2) / (p.quantity + b.1))
            = p.quantity * p.entry_price + b.1 * b.2 := by
          rw [mul_comm, div_mul_cancel₀ _ (ne_of_gt hqb)]
        show (p.quantity + b.1)
            * ((p.quantity * p.entry_price + b.1 * b.2) / (p.quantity + b.1))
            + (rest.map (fun b => b.1 * b.2)).sum = _
        rw [hcost]
        simp only [List.map_cons, List.sum_cons]
        ring

/-- C3: starting from a well-formed state with no open position for the
symbol, every non-empty sequence of buys with positive quantities (applied
through `update_position_for_buy_order`, as `create_order`'s buy branch does)
leaves exactly one position for the symbol whose quantity is the sum of the
bought quantities and whose entry price is the volume-weighted average
`Σ(qty*price) / Σ qty`; the induction of `apply_buys_existing` shows the
invariant is preserved by every further buy. -/
theorem buys_track_average_cost (st : TradingState) (symbol : String)
    (buys : List (ℚ × ℚ)) (hwf : WF st)
    (h0 : PaperTradingRepository.get_position_by_user_and_symbol st symbol
      = none)
    (hne : buys ≠ []) (hpos : ∀ b ∈ buys, 0 < b.1) :
    ∃ p, PaperTradingRepository.get_position_by_user_and_symbol
            (PaperTradingService.apply_buys st symbol buys) symbol = some p
      ∧ p.quantity = (buys.map Prod.fst).sum
      ∧ p.entry_price
          = (buys.map (fun b => b.1 * b.2)).sum / (buys.map Prod.fst).sum := by
  match buys, hne with
  | b :: rest, _ =>
    simp only [PaperTradingRepository.get_position_by_user_and_symbol] at h0 ⊢
    have hb1 : 0 < b.1 := hpos b (List.mem_cons_self b rest)
    have hbrest : ∀ x ∈ rest, 0 < x.1 :=
      fun x hx => hpos x (List.mem_cons_of_mem b hx)
    have hstep : PaperTradingService.apply_buys st symbol (b :: rest)
        = PaperTradingService.apply_buys
            { st with
                positions := st.positions
                  ++ [{ id := some st.next_id, symbol := symbol,
                        quantity := b.1, entry_price := b.2,
                        current_price := b.2, unrealized_pnl := 0,
                        realized_pnl := 0, side := OrderSide.Buy }],
                next_id := st.next_id + 1 } symbol rest := by
      simp only [PaperTradingService.apply_buys,
        PaperTradingService.update_position_for_buy_order,
        PaperTradingRepository.get_position_by_user_and_symbol,
        PaperTradingRepository.create_position, h0]
    have hwf₁ : WF { st with
        positions := st.positions
          ++ [{ id := some st.next_id, symbol := symbol, quantity := b.1,
                entry_price := b.2, current_price := b.2, unrealized_pnl := 0,
                realized_pnl := 0, side := OrderSide.Buy }],
        next_id := st.next_id + 1 } := by
      constructor
      · show ((st.positions ++ _).map Position.id).Nodup
        rw [List.map_append, List.nodup_append]
        refine ⟨hwf.1, List.nodup_singleton _, ?_⟩
        intro a ha hamem
        rcases List.mem_map.mp ha with ⟨q, hq, rfl⟩
        simp only [List.map_cons, List.map_nil, List.mem_singleton] at hamem
        have := hwf.2 q hq st.next_id hamem
        exact absurd this (lt_irrefl _)
      · intro q hq i hqi
        rcases List.mem_append.mp hq with hql | hqr
        · exact Nat.lt_succ_of_lt (hwf.2 q hql i hqi)
        · rcases List.mem_singleton.mp hqr with rfl
          have : some st.next_id = some i := hqi
          rw [Option.some.injEq] at this
          rw [← this]
          exact Nat.lt_succ_self _
    have hfind₁ : ({ st with
        positions := st.positions
          ++ [{ id := some st.next_id, symbol := symbol, quantity := b.1,
                entry_price := b.2, current_price := b.2, unrealized_pnl := 0,
                realized_pnl := 0, side := OrderSide.Buy }],
        next_id := st.next_id + 1 } : TradingState).positions.find?
          (fun q => q.symbol == symbol)
        = some
            { id := some st.next_id, symbol := symbol, quantity := b.1,
              entry_price := b.2, current_price := b.2, unrealized_pnl := 0,
              realized_pnl := 0, side := OrderSide.Buy } :=
      find?_append_single st.positions _ symbol h0 (by simp)
    obtain ⟨p', hfind', hq', hc'⟩ := apply_buys_existing symbol rest _ _
      hwf₁ hfind₁ rfl hb1 hbrest
    have hqsum : p'.quantity = ((b :: rest).map Prod.fst).sum := by
      rw [hq']
      simp only [List.map_cons, List.sum_cons]
    have hqpos : 0 < p'.quantity := by
      rw [hq']
      have hrest : 0 ≤ (rest.map Prod.fst).sum := by
        refine List.sum_nonneg ?_
        intro x hx
        rcases List.mem_map.mp hx with ⟨y, hy, rfl⟩
        exact le_of_lt (hbrest y hy)
      show (0 : ℚ) < b.1 + (rest.map Prod.fst).sum
      linarith
    refine ⟨p', by rw [hstep]; exact hfind', hqsum, ?_⟩
    rw [eq_div_iff (by rw [← hqsum]; exact ne_of_gt hqpos)]
    rw [← hqsum, mul_comm, hc']
    simp only [List.map_cons, List.sum_cons]

/-- Witness for C3: from an empty state, buying 2 units at 10 and then 2
units at 20 yields one position of quantity 4 with entry price
(2*10 + 2*20)/4 = 15. -/
theorem buys_track_average_cost_witness :
    ∃ p, PaperTradingRepository.get_position_by_user_and_symbol
            (PaperTradingService.apply_buys emptyState "BTCUSDT"
              [(2, 10), (2, 20)]) "BTCUSDT" = some p
      ∧ p.quantity = ([((2 : ℚ), (10 : ℚ)), (2, 20)].map Prod.fst).sum
      ∧ p.entry_price
          = ([((2 : ℚ), (10 : ℚ)), (2, 20)].map (fun b => b.1 * b.2)).sum
            / ([((2 : ℚ), (10 : ℚ)), (2, 20)].map Prod.fst).sum :=
  buys_track_average_cost emptyState "BTCUSDT" [(2, 10), (2, 20)]
    ⟨by simp [emptyState], by simp [emptyState]⟩ rfl (by simp)
    (by intro b hb; fin_cases hb <;> norm_num)

end RustTrading
